import Mathlib

/-!
Verification of the dynamic-environment core of `maliput_integration`:
the `DynamicEnvironmentHandler` base contract
(`include/integration/dynamic_environment_handler.h`) and its single
concrete strategy `FixedPhaseIterationHandler`
(`include/integration/fixed_phase_iteration_handler.h`,
`src/integration/fixed_phase_iteration_handler.cc`).

The embedding keeps the C++ structure: time values (seconds, C++
`double`) are modelled as rationals, pointer nullability as `Option`,
and the `MALIPUT_THROW_UNLESS` assertion macro as an error-returning
outcome.  The external collaborators consumed by `Update()` — the
phase ring book, the phase rings and the `ManualPhaseProvider` — are
represented by their documented get/set interfaces
(`GetPhaseRings`, `GetPhaseRing`, `GetNextPhases`, `GetPhase`,
`SetPhase`); the provider is a per-ring table of
current/pending-next phase records.
-/

namespace Maliput

/-- Seconds, as returned by `Timer::Elapsed()` (C++ `double`). -/
abbrev Time : Type := ℚ

/-- `maliput::api::rules::Phase::Id`. -/
abbrev PhaseId : Type := String

/-- `maliput::api::rules::PhaseRing::Id`. -/
abbrev RingId : Type := String

/-- `PhaseRing::NextPhase`: a reachable-next phase id together with an
optional duration-until value. -/
structure NextPhase where
  id : PhaseId
  duration_until : Option Time
deriving DecidableEq

/-- A phase ring, reduced to the one member function `Update()` calls:
`GetNextPhases(phase_id)` returning the ordered list of reachable-next
phases for a given phase of this ring. -/
structure PhaseRing where
  GetNextPhases : PhaseId → List NextPhase

/-- `PhaseProvider::Result::Next`: the pending-next phase of a ring's
provider record. -/
structure ResultNext where
  state : PhaseId
  duration_until : Option Time
deriving DecidableEq

/-- `PhaseProvider::Result`: the provider's record for one ring — its
current phase and the optional pending-next phase. -/
structure ProviderResult where
  state : PhaseId
  next : Option ResultNext
deriving DecidableEq

/-- The mutable state of a `ManualPhaseProvider`: a per-ring table of
records; `none` means the ring was never registered. -/
def ProviderState : Type := RingId → Option ProviderResult

/-- `ManualPhaseProvider::GetPhase(ring_id)`. -/
def ProviderState.GetPhase (p : ProviderState) (r : RingId) : Option ProviderResult :=
  p r

/-- `ManualPhaseProvider::SetPhase(ring_id, state, next_state,
duration_until)` as invoked by `Update()`: overwrite the ring's record
with the new current state and a populated pending-next entry. -/
def ProviderState.SetPhase (p : ProviderState) (r : RingId) (s : PhaseId)
    (ns : PhaseId) (du : Option Time) : ProviderState :=
  fun q => if q = r then some ⟨s, some ⟨ns, du⟩⟩ else p q

/-- `PhaseRingBook`, reduced to the two member functions `Update()`
calls: the ordered collection of ring ids and the per-id ring lookup. -/
structure PhaseRingBook where
  GetPhaseRings : List RingId
  GetPhaseRing : RingId → PhaseRing

/-- `maliput::api::RoadNetwork`, reduced to what the handler touches:
its phase ring book and its phase provider.  `providerIsManual` records
whether the provider's dynamic type is `ManualPhaseProvider` — i.e.
whether the `dynamic_cast<ManualPhaseProvider*>` in `Update()` yields a
non-null pointer. -/
structure RoadNetwork where
  phase_ring_book : PhaseRingBook
  providerIsManual : Bool
  provider : ProviderState

/-- How a call can go wrong.  `invalidArgument` and
`preconditionViolation` are thrown by `MALIPUT_THROW_UNLESS`; the two
`ub` constructors mark executions that are undefined behavior in the
C++ (not thrown errors): dereferencing the null result of a failed
`dynamic_cast`, and `front()` on an empty `next_phases` vector. -/
inductive Fault where
  | invalidArgument
  | preconditionViolation
  | ubNullProviderDeref
  | ubEmptyNextPhasesFront
deriving DecidableEq

/-- A `Timer`: an elapsed-time source.  `elapsed n` is the reading
returned by the n-th `Elapsed()` call since the last `Reset()`. -/
structure Timer where
  elapsed : Nat → Time

/-- `DynamicEnvironmentHandler`'s protected constructor
(`dynamic_environment_handler.h` lines 28-32): stores the two borrowed
pointers after `MALIPUT_THROW_UNLESS(road_network_ != nullptr)` and
`MALIPUT_THROW_UNLESS(timer_ != nullptr)`, in that order. -/
def DynamicEnvironmentHandler.construct (timer : Option Timer)
    (road_network : Option RoadNetwork) : Except Fault (Timer × RoadNetwork) :=
  match road_network with
  | none => .error .invalidArgument
  | some rn =>
    match timer with
    | none => .error .invalidArgument
    | some t => .ok (t, rn)

/-- The state owned by a `FixedPhaseIterationHandler`: the fixed
`phase_duration_` and the mutable `last_elapsed_time_`
(default-initialized to 0). -/
structure FixedPhaseIterationHandler where
  phase_duration : Time
  last_elapsed_time : Time
deriving DecidableEq

/-- `FixedPhaseIterationHandler`'s constructor
(`fixed_phase_iteration_handler.h` lines 24-27): base construction
(null checks), then `MALIPUT_THROW_UNLESS(phase_duration > 0.)`. -/
def FixedPhaseIterationHandler.construct (timer : Option Timer)
    (road_network : Option RoadNetwork) (phase_duration : Time) :
    Except Fault (Timer × RoadNetwork × FixedPhaseIterationHandler) :=
  match DynamicEnvironmentHandler.construct timer road_network with
  | .error e => .error e
  | .ok (t, rn) =>
    if phase_duration > 0 then .ok (t, rn, ⟨phase_duration, 0⟩)
    else .error .invalidArgument

/-- The per-ring loop of `FixedPhaseIterationHandler::Update()`
(`fixed_phase_iteration_handler.cc` lines 17-29), iterating over
`GetPhaseRings()` in order.  `isManual` is whether the
`dynamic_cast<ManualPhaseProvider*>` produced a non-null pointer; each
iteration dereferences it (`phase_provider->GetPhase`).  A fault stops
the loop (the C++ exception propagates, and undefined behavior a
fortiori); the provider state mutated so far is returned as-is — there
is no rollback. -/
def updateLoop (rb : PhaseRingBook) (isManual : Bool) :
    List RingId → ProviderState → ProviderState × Option Fault
  | [], prov => (prov, none)
  | r :: rest, prov =>
    if isManual then
      match prov.GetPhase r with
      | none => (prov, some .preconditionViolation)
      | some res =>
        match res.next with
        | none => updateLoop rb isManual rest prov
        | some nxt =>
          match ((rb.GetPhaseRing r).GetNextPhases nxt.state) with
          | [] => (prov, some .ubEmptyNextPhasesFront)
          | np :: _ =>
            updateLoop rb isManual rest (prov.SetPhase r nxt.state np.id np.duration_until)
    else (prov, some .ubNullProviderDeref)

/-- The outcome of one `Update()` call: the handler's state, the road
network (with its provider state possibly mutated in place), and the
fault if the call did not complete normally. -/
structure UpdateResult where
  handler : FixedPhaseIterationHandler
  network : RoadNetwork
  fault : Option Fault

/-- `FixedPhaseIterationHandler::Update()`
(`fixed_phase_iteration_handler.cc` lines 9-30).  The body calls
`timer_->Elapsed()` twice: `e1` is the reading used in the threshold
test on line 10, `e2` the reading stored into `last_elapsed_time_` on
line 13. -/
def FixedPhaseIterationHandler.update (h : FixedPhaseIterationHandler)
    (rn : RoadNetwork) (e1 e2 : Time) : UpdateResult :=
  if ¬(e1 - h.last_elapsed_time > h.phase_duration) then
    ⟨h, rn, none⟩
  else
    let h2 : FixedPhaseIterationHandler := ⟨h.phase_duration, e2⟩
    let out := updateLoop rn.phase_ring_book rn.providerIsManual
      rn.phase_ring_book.GetPhaseRings rn.provider
    ⟨h2, ⟨rn.phase_ring_book, rn.providerIsManual, out.1⟩, out.2⟩

/-- A driving loop calling `Update()` repeatedly; each element of the
list gives the two `Elapsed()` readings of one call.  A thrown fault
ends the run (the exception propagates out of the polling loop). -/
def updateMany : FixedPhaseIterationHandler → RoadNetwork →
    List (Time × Time) → FixedPhaseIterationHandler × RoadNetwork × Option Fault
  | h, rn, [] => (h, rn, none)
  | h, rn, (e1, e2) :: rest =>
    let u := h.update rn e1 e2
    match u.fault with
    | some f => (u.handler, u.network, some f)
    | none => updateMany u.handler u.network rest

/-- A ring is fully well-formed for one pass of the loop: it has a
provider record, and if that record's pending-next phase is populated
then the ring's reachable-next list for that phase is non-empty. -/
def ringOkB (rb : PhaseRingBook) (prov : ProviderState) (r : RingId) : Bool :=
  match prov r with
  | none => false
  | some res =>
    match res.next with
    | none => true
    | some nxt => !((rb.GetPhaseRing r).GetNextPhases nxt.state).isEmpty

/-- Weaker per-ring condition: the ring's record may be missing, but
if present and its pending-next phase is populated then the
reachable-next list for that phase is non-empty (no `front()` hazard). -/
def ringNextOkB (rb : PhaseRingBook) (prov : ProviderState) (r : RingId) : Bool :=
  match prov r with
  | none => true
  | some res =>
    match res.next with
    | none => true
    | some nxt => !((rb.GetPhaseRing r).GetNextPhases nxt.state).isEmpty

/-! Helper lemmas about `SetPhase`, the well-formedness predicates and
the per-ring loop. -/

theorem SetPhase_self (p : ProviderState) (r : RingId) (s ns : PhaseId)
    (du : Option Time) : p.SetPhase r s ns du r = some ⟨s, some ⟨ns, du⟩⟩ := by
  simp [ProviderState.SetPhase]

theorem SetPhase_other (p : ProviderState) (r : RingId) (s ns : PhaseId)
    (du : Option Time) (q : RingId) (h : q ≠ r) : p.SetPhase r s ns du q = p q := by
  simp [ProviderState.SetPhase, h]

theorem ringOkB_record {rb : PhaseRingBook} {prov : ProviderState} {r : RingId}
    (h : ringOkB rb prov r = true) : ∃ res, prov r = some res := by
  unfold ringOkB at h
  rcases hr : prov r with _ | res
  · rw [hr] at h; cases h
  · exact ⟨res, rfl⟩

theorem ringOkB_nexts {rb : PhaseRingBook} {prov : ProviderState} {r : RingId}
    {res : ProviderResult} {nxt : ResultNext} (h : ringOkB rb prov r = true)
    (hres : prov r = some res) (hnxt : res.next = some nxt) :
    ∃ np nps, (rb.GetPhaseRing r).GetNextPhases nxt.state = np :: nps := by
  unfold ringOkB at h
  simp only [hres, hnxt] at h
  rcases hnp : (rb.GetPhaseRing r).GetNextPhases nxt.state with _ | ⟨np, nps⟩
  · rw [hnp] at h; simp [List.isEmpty] at h
  · exact ⟨np, nps, rfl⟩

theorem ringOkB_SetPhase {rb : PhaseRingBook} {prov : ProviderState}
    {r q : RingId} {s ns : PhaseId} {du : Option Time} (h : q ≠ r) :
    ringOkB rb (prov.SetPhase r s ns du) q = ringOkB rb prov q := by
  unfold ringOkB
  rw [SetPhase_other prov r s ns du q h]

theorem ringNextOkB_nexts {rb : PhaseRingBook} {prov : ProviderState} {r : RingId}
    {res : ProviderResult} {nxt : ResultNext} (h : ringNextOkB rb prov r = true)
    (hres : prov r = some res) (hnxt : res.next = some nxt) :
    ∃ np nps, (rb.GetPhaseRing r).GetNextPhases nxt.state = np :: nps := by
  unfold ringNextOkB at h
  simp only [hres, hnxt] at h
  rcases hnp : (rb.GetPhaseRing r).GetNextPhases nxt.state with _ | ⟨np, nps⟩
  · rw [hnp] at h; simp [List.isEmpty] at h
  · exact ⟨np, nps, rfl⟩

theorem ringNextOkB_SetPhase {rb : PhaseRingBook} {prov : ProviderState}
    {r q : RingId} {s ns : PhaseId} {du : Option Time} (h : q ≠ r) :
    ringNextOkB rb (prov.SetPhase r s ns du) q = ringNextOkB rb prov q := by
  unfold ringNextOkB
  rw [SetPhase_other prov r s ns du q h]

/-- Rings outside the iterated list are never written by the loop,
whether it completes or stops on a fault. -/
theorem updateLoop_not_mem (rb : PhaseRingBook) (m : Bool) (rings : List RingId) :
    ∀ (prov : ProviderState) (q : RingId), q ∉ rings →
      (updateLoop rb m rings prov).1 q = prov q := by
  induction rings with
  | nil => intro prov q _; rfl
  | cons r rest ih =>
    intro prov q hq
    have hqr : q ≠ r := fun h => hq (h ▸ List.mem_cons_self r rest)
    have hqrest : q ∉ rest := fun h => hq (List.mem_cons_of_mem r h)
    cases m with
    | false => rfl
    | true =>
      rcases hrec : prov.GetPhase r with _ | res
      · simp [updateLoop, hrec]
      · rcases hnx : res.next with _ | nxt
        · simp only [updateLoop, hrec, hnx, if_true]
          exact ih prov q hqrest
        · rcases hnp : (rb.GetPhaseRing r).GetNextPhases nxt.state with _ | ⟨np, nps⟩
          · simp [updateLoop, hrec, hnx, hnp]
          · simp only [updateLoop, hrec, hnx, hnp, if_true]
            rw [ih _ q hqrest]
            exact SetPhase_other prov r nxt.state np.id np.duration_until q hqr

/-- Sunny-day run of the loop: if every ring in the (duplicate-free)
list has a record whose populated pending-next phase has a non-empty
reachable-next list, the loop completes without fault; each ring whose
record had no pending-next keeps its record, and each ring with
pending-next `nxt` ends with current state `nxt.state` and pending-next
taken from the head of its reachable-next list for `nxt.state`. -/
theorem updateLoop_ok_all (rb : PhaseRingBook) (rings : List RingId) :
    ∀ prov : ProviderState, rings.Nodup →
      (∀ r ∈ rings, ringOkB rb prov r = true) →
      (updateLoop rb true rings prov).2 = none ∧
      ∀ R ∈ rings, ∀ res : ProviderResult, prov R = some res →
        ((res.next = none → (updateLoop rb true rings prov).1 R = prov R) ∧
         (∀ nxt : ResultNext, res.next = some nxt →
           ∃ np nps, (rb.GetPhaseRing R).GetNextPhases nxt.state = np :: nps ∧
             (updateLoop rb true rings prov).1 R =
               some ⟨nxt.state, some ⟨np.id, np.duration_until⟩⟩)) := by
  induction rings with
  | nil =>
    intro prov _ _
    exact ⟨rfl, fun R hR => absurd hR (List.not_mem_nil R)⟩
  | cons r rest ih =>
    intro prov hnd hok
    rw [List.nodup_cons] at hnd
    obtain ⟨hrni, hndrest⟩ := hnd
    have hokr := hok r (List.mem_cons_self r rest)
    obtain ⟨res0, hres0⟩ := ringOkB_record hokr
    have hres0g : prov.GetPhase r = some res0 := hres0
    rcases hnx : res0.next with _ | nxt
    · have hstep : updateLoop rb true (r :: rest) prov = updateLoop rb true rest prov := by
        simp only [updateLoop, hres0g, hnx, if_true]
      have ihh := ih prov hndrest (fun q hq => hok q (List.mem_cons_of_mem r hq))
      rw [hstep]
      refine ⟨ihh.1, ?_⟩
      intro R hR res hres
      rcases List.mem_cons.mp hR with hRr | hRrest
      · subst hRr
        have hres0e : res = res0 := by
          rw [hres0] at hres
          exact (Option.some.inj hres).symm
        have hunch : (updateLoop rb true rest prov).1 R = prov R :=
          updateLoop_not_mem rb true rest prov R hrni
        constructor
        · intro _; exact hunch
        · intro nxt2 hnxt2
          rw [hres0e, hnx] at hnxt2
          cases hnxt2
      · exact ihh.2 R hRrest res hres
    · obtain ⟨np, nps, hnp⟩ := ringOkB_nexts hokr hres0 hnx
      have hstep : updateLoop rb true (r :: rest) prov =
          updateLoop rb true rest (prov.SetPhase r nxt.state np.id np.duration_until) := by
        simp only [updateLoop, hres0g, hnx, hnp, if_true]
      have hok2 : ∀ q ∈ rest,
          ringOkB rb (prov.SetPhase r nxt.state np.id np.duration_until) q = true := by
        intro q hq
        have hqr : q ≠ r := fun h => hrni (h ▸ hq)
        rw [ringOkB_SetPhase hqr]
        exact hok q (List.mem_cons_of_mem r hq)
      have ihh := ih (prov.SetPhase r nxt.state np.id np.duration_until) hndrest hok2
      rw [hstep]
      refine ⟨ihh.1, ?_⟩
      intro R hR res hres
      rcases List.mem_cons.mp hR with hRr | hRrest
      · subst hRr
        have hres0e : res = res0 := by
          rw [hres0] at hres
          exact (Option.some.inj hres).symm
        constructor
        · intro hnone
          rw [hres0e, hnx] at hnone
          cases hnone
        · intro nxt2 hnxt2
          rw [hres0e, hnx] at hnxt2
          have hnxt2e : nxt2 = nxt := (Option.some.inj hnxt2).symm
          subst hnxt2e
          refine ⟨np, nps, hnp, ?_⟩
          have hunch := updateLoop_not_mem rb true rest
            (prov.SetPhase R nxt2.state np.id np.duration_until) R hrni
          rw [hunch]
          exact SetPhase_self prov R nxt2.state np.id np.duration_until
      · have hRr : R ≠ r := fun h => hrni (h ▸ hRrest)
        have heq : prov.SetPhase r nxt.state np.id np.duration_until R = prov R :=
          SetPhase_other prov r nxt.state np.id np.duration_until R hRr
        have hres2 : prov.SetPhase r nxt.state np.id np.duration_until R = some res := by
          rw [heq]; exact hres
        have ihR := ihh.2 R hRrest res hres2
        constructor
        · intro hn
          rw [ihR.1 hn]
          exact heq
        · exact ihR.2

/-- If some ring in the list has no provider record while every present
record with a populated pending-next has a non-empty reachable-next
list, the loop stops with a `preconditionViolation`. -/
theorem updateLoop_missing_fault (rb : PhaseRingBook) (rings : List RingId) :
    ∀ prov : ProviderState, rings.Nodup →
      (∀ r ∈ rings, ringNextOkB rb prov r = true) →
      ∀ R ∈ rings, prov R = none →
        (updateLoop rb true rings prov).2 = some .preconditionViolation := by
  induction rings with
  | nil => intro prov _ _ R hR _; exact absurd hR (List.not_mem_nil R)
  | cons r rest ih =>
    intro prov hnd hok R hR hmiss
    rw [List.nodup_cons] at hnd
    obtain ⟨hrni, hndrest⟩ := hnd
    rcases hrec : prov r with _ | res
    · have hrecg : prov.GetPhase r = none := hrec
      simp [updateLoop, hrecg]
    · have hrecg : prov.GetPhase r = some res := hrec
      have hRr : R ≠ r := by
        intro h
        rw [h, hrec] at hmiss
        cases hmiss
      have hRrest : R ∈ rest := (List.mem_cons.mp hR).resolve_left hRr
      rcases hnx : res.next with _ | nxt
      · have hstep : updateLoop rb true (r :: rest) prov = updateLoop rb true rest prov := by
          simp only [updateLoop, hrecg, hnx, if_true]
        rw [hstep]
        exact ih prov hndrest (fun q hq => hok q (List.mem_cons_of_mem r hq)) R hRrest hmiss
      · obtain ⟨np, nps, hnp⟩ :=
          ringNextOkB_nexts (hok r (List.mem_cons_self r rest)) hrec hnx
        have hstep : updateLoop rb true (r :: rest) prov =
            updateLoop rb true rest (prov.SetPhase r nxt.state np.id np.duration_until) := by
          simp only [updateLoop, hrecg, hnx, hnp, if_true]
        rw [hstep]
        have hok2 : ∀ q ∈ rest,
            ringNextOkB rb (prov.SetPhase r nxt.state np.id np.duration_until) q = true := by
          intro q hq
          have hqr : q ≠ r := fun h => hrni (h ▸ hq)
          rw [ringNextOkB_SetPhase hqr]
          exact hok q (List.mem_cons_of_mem r hq)
        have hmiss2 : prov.SetPhase r nxt.state np.id np.duration_until R = none := by
          rw [SetPhase_other prov r nxt.state np.id np.duration_until R hRr]
          exact hmiss
        exact ih (prov.SetPhase r nxt.state np.id np.duration_until) hndrest hok2 R hRrest hmiss2

/-- No-rollback: when the rings before a record-less ring `R` are all
well-formed, the loop stops at `R` with a `preconditionViolation`, yet
every earlier ring with a pending transition has already been advanced
in the returned provider state. -/
theorem updateLoop_no_rollback (rb : PhaseRingBook) (l1 : List RingId) :
    ∀ (prov : ProviderState) (R : RingId) (l2 : List RingId),
      (l1 ++ R :: l2).Nodup →
      (∀ r ∈ l1, ringOkB rb prov r = true) →
      prov R = none →
      (updateLoop rb true (l1 ++ R :: l2) prov).2 = some .preconditionViolation ∧
      ∀ S ∈ l1, ∀ res : ProviderResult, ∀ nxt : ResultNext,
        prov S = some res → res.next = some nxt →
        ∃ np nps, (rb.GetPhaseRing S).GetNextPhases nxt.state = np :: nps ∧
          (updateLoop rb true (l1 ++ R :: l2) prov).1 S =
            some ⟨nxt.state, some ⟨np.id, np.duration_until⟩⟩ := by
  induction l1 with
  | nil =>
    intro prov R l2 _ _ hmiss
    have hmissg : prov.GetPhase R = none := hmiss
    constructor
    · simp [updateLoop, hmissg]
    · intro S hS; exact absurd hS (List.not_mem_nil S)
  | cons s l1x ih =>
    intro prov R l2 hnd hok hmiss
    rw [List.cons_append, List.nodup_cons] at hnd
    obtain ⟨hsni, hndrest⟩ := hnd
    have hoks := hok s (List.mem_cons_self s l1x)
    obtain ⟨res0, hres0⟩ := ringOkB_record hoks
    have hres0g : prov.GetPhase s = some res0 := hres0
    rcases hnx : res0.next with _ | nxt
    · have hstep : updateLoop rb true (s :: (l1x ++ R :: l2)) prov =
          updateLoop rb true (l1x ++ R :: l2) prov := by
        simp only [updateLoop, hres0g, hnx, if_true]
      have ihh := ih prov R l2 hndrest
        (fun q hq => hok q (List.mem_cons_of_mem s hq)) hmiss
      rw [List.cons_append, hstep]
      refine ⟨ihh.1, ?_⟩
      intro S hS res nxt hres hnxt
      rcases List.mem_cons.mp hS with hSs | hSl1x
      · subst hSs
        rw [hres0] at hres
        rw [(Option.some.inj hres).symm, hnx] at hnxt
        cases hnxt
      · exact ihh.2 S hSl1x res nxt hres hnxt
    · obtain ⟨np, nps, hnp⟩ := ringOkB_nexts hoks hres0 hnx
      have hstep : updateLoop rb true (s :: (l1x ++ R :: l2)) prov =
          updateLoop rb true (l1x ++ R :: l2)
            (prov.SetPhase s nxt.state np.id np.duration_until) := by
        simp only [updateLoop, hres0g, hnx, hnp, if_true]
      have hsR : s ≠ R := by
        intro h
        rw [h, hmiss] at hres0
        cases hres0
      have hok2 : ∀ q ∈ l1x,
          ringOkB rb (prov.SetPhase s nxt.state np.id np.duration_until) q = true := by
        intro q hq
        have hqs : q ≠ s := by
          intro h
          exact hsni (h ▸ List.mem_append_left (R :: l2) hq)
        rw [ringOkB_SetPhase hqs]
        exact hok q (List.mem_cons_of_mem s hq)
      have hmiss2 : prov.SetPhase s nxt.state np.id np.duration_until R = none := by
        rw [SetPhase_other prov s nxt.state np.id np.duration_until R (Ne.symm hsR)]
        exact hmiss
      have ihh := ih (prov.SetPhase s nxt.state np.id np.duration_until) R l2
        hndrest hok2 hmiss2
      rw [List.cons_append, hstep]
      refine ⟨ihh.1, ?_⟩
      intro S hS res nxt2 hres hnxt2
      rcases List.mem_cons.mp hS with hSs | hSl1x
      · subst hSs
        rw [hres0] at hres
        rw [(Option.some.inj hres).symm, hnx] at hnxt2
        have hnxt2e : nxt2 = nxt := (Option.some.inj hnxt2).symm
        subst hnxt2e
        refine ⟨np, nps, hnp, ?_⟩
        have hunch := updateLoop_not_mem rb true (l1x ++ R :: l2)
          (prov.SetPhase S nxt2.state np.id np.duration_until) S hsni
        rw [hunch]
        exact SetPhase_self prov S nxt2.state np.id np.duration_until
      · have hSs : S ≠ s := by
          intro h
          exact hsni (h ▸ List.mem_append_left (R :: l2) hSl1x)
        have heq : prov.SetPhase s nxt.state np.id np.duration_until S = prov S :=
          SetPhase_other prov s nxt.state np.id np.duration_until S hSs
        have hres2 : prov.SetPhase s nxt.state np.id np.duration_until S = some res := by
          rw [heq]; exact hres
        exact ihh.2 S hSl1x res nxt2 hres2 hnxt2

/-- With a successfully cast (non-null) `ManualPhaseProvider`, the loop
can never fault with a null-pointer dereference. -/
theorem updateLoop_true_no_nullderef (rb : PhaseRingBook) (rings : List RingId) :
    ∀ prov : ProviderState,
      (updateLoop rb true rings prov).2 ≠ some Fault.ubNullProviderDeref := by
  induction rings with
  | nil => intro prov h; cases h
  | cons r rest ih =>
    intro prov
    rcases hrec : prov.GetPhase r with _ | res
    · simp [updateLoop, hrec]
    · rcases hnx : res.next with _ | nxt
      · simp only [updateLoop, hrec, hnx, if_true]
        exact ih prov
      · rcases hnp : (rb.GetPhaseRing r).GetNextPhases nxt.state with _ | ⟨np, nps⟩
        · simp [updateLoop, hrec, hnx, hnp]
        · simp only [updateLoop, hrec, hnx, hnp, if_true]
          exact ih (prov.SetPhase r nxt.state np.id np.duration_until)

/-- If every present record with a populated pending-next phase has a
non-empty reachable-next list, the loop can never fault on
`front()`-of-empty. -/
theorem updateLoop_nextok_no_front_ub (rb : PhaseRingBook) (rings : List RingId) :
    ∀ prov : ProviderState, rings.Nodup →
      (∀ r ∈ rings, ringNextOkB rb prov r = true) →
      (updateLoop rb true rings prov).2 ≠ some Fault.ubEmptyNextPhasesFront := by
  induction rings with
  | nil => intro prov _ _ h; cases h
  | cons r rest ih =>
    intro prov hnd hok
    rw [List.nodup_cons] at hnd
    obtain ⟨hrni, hndrest⟩ := hnd
    rcases hrec : prov.GetPhase r with _ | res
    · simp [updateLoop, hrec]
    · rcases hnx : res.next with _ | nxt
      · simp only [updateLoop, hrec, hnx, if_true]
        exact ih prov hndrest (fun q hq => hok q (List.mem_cons_of_mem r hq))
      · obtain ⟨np, nps, hnp⟩ :=
          ringNextOkB_nexts (hok r (List.mem_cons_self r rest)) hrec hnx
        simp only [updateLoop, hrec, hnx, hnp, if_true]
        have hok2 : ∀ q ∈ rest,
            ringNextOkB rb (prov.SetPhase r nxt.state np.id np.duration_until) q = true := by
          intro q hq
          have hqr : q ≠ r := fun h => hrni (h ▸ hq)
          rw [ringNextOkB_SetPhase hqr]
          exact hok q (List.mem_cons_of_mem r hq)
        exact ih (prov.SetPhase r nxt.state np.id np.duration_until) hndrest hok2

/-- An `Update()` call on the cheap path (threshold not crossed)
returns leaving handler and network untouched. -/
theorem update_noop (h : FixedPhaseIterationHandler) (rn : RoadNetwork) (e1 e2 : Time)
    (hc : ¬(e1 - h.last_elapsed_time > h.phase_duration)) :
    h.update rn e1 e2 = ⟨h, rn, none⟩ := by
  simp only [FixedPhaseIterationHandler.update, if_pos hc]

/-- On an advancing call, the fault of `Update()` is the fault of the
per-ring loop. -/
theorem update_adv_fault (h : FixedPhaseIterationHandler) (rn : RoadNetwork) (e1 e2 : Time)
    (hthr : e1 - h.last_elapsed_time > h.phase_duration) :
    (h.update rn e1 e2).fault =
      (updateLoop rn.phase_ring_book rn.providerIsManual
        rn.phase_ring_book.GetPhaseRings rn.provider).2 := by
  simp only [FixedPhaseIterationHandler.update, if_neg (not_not_intro hthr)]

/-- On an advancing call, the provider state after `Update()` is the
provider state produced by the per-ring loop. -/
theorem update_adv_provider (h : FixedPhaseIterationHandler) (rn : RoadNetwork) (e1 e2 : Time)
    (hthr : e1 - h.last_elapsed_time > h.phase_duration) :
    (h.update rn e1 e2).network.provider =
      (updateLoop rn.phase_ring_book rn.providerIsManual
        rn.phase_ring_book.GetPhaseRings rn.provider).1 := by
  simp only [FixedPhaseIterationHandler.update, if_neg (not_not_intro hthr)]

/-- On an advancing call, `last_elapsed_time_` is assigned the second
`Elapsed()` reading (line 13 of the `.cc`), before the loop runs. -/
theorem update_adv_last (h : FixedPhaseIterationHandler) (rn : RoadNetwork) (e1 e2 : Time)
    (hthr : e1 - h.last_elapsed_time > h.phase_duration) :
    (h.update rn e1 e2).handler.last_elapsed_time = e2 := by
  simp only [FixedPhaseIterationHandler.update, if_neg (not_not_intro hthr)]

/-! Concrete fixtures mirroring the repository's test scenario
(`SingleRoadPedestrianCrosswalk`: one ring cycling
`AllGoPhase -> AllStopPhase -> AllGoPhase`, `phase_duration = 0.5`). -/

/-- The crosswalk ring: from `AllGoPhase` the only reachable-next phase
is `AllStopPhase` and vice versa, each with a 45 s duration-until. -/
def xRing : PhaseRing :=
  ⟨fun p => if p = "AllGoPhase" then [⟨"AllStopPhase", some 45⟩]
    else if p = "AllStopPhase" then [⟨"AllGoPhase", some 45⟩] else []⟩

def xBook : PhaseRingBook := ⟨["X"], fun _ => xRing⟩

/-- Provider registered with ring `X` in `AllGoPhase`, pending-next
`AllStopPhase`. -/
def xProv : ProviderState :=
  fun r => if r = "X" then some ⟨"AllGoPhase", some ⟨"AllStopPhase", some 45⟩⟩ else none

def xRN : RoadNetwork := ⟨xBook, true, xProv⟩

/-- Handler with `phase_duration = 0.5` right after construction. -/
def xH : FixedPhaseIterationHandler := ⟨1/2, 0⟩

/-- Two-ring network: ring `T` is terminal (record present, no
pending-next), ring `Y` has a pending transition to `AllStopPhase`. -/
def tyBook : PhaseRingBook := ⟨["T", "Y"], fun _ => xRing⟩

def tyProv : ProviderState :=
  fun r =>
    if r = "T" then some ⟨"AllGoPhase", none⟩
    else if r = "Y" then some ⟨"AllGoPhase", some ⟨"AllStopPhase", some 45⟩⟩ else none

def tyRN : RoadNetwork := ⟨tyBook, true, tyProv⟩

/-- Two-ring network: ring `X` is well-formed and pending, ring `M` has
no provider record at all. -/
def xmBook : PhaseRingBook := ⟨["X", "M"], fun _ => xRing⟩

def xmRN : RoadNetwork := ⟨xmBook, true, xProv⟩

example : (xH.update xRN (3/5) (3/5)).fault = none := by
  have hthr : ¬¬((3:ℚ)/5 - xH.last_elapsed_time > xH.phase_duration) := by
    norm_num [xH]
  simp only [FixedPhaseIterationHandler.update, if_neg hthr]
  rfl
example : (xH.update xRN (3/5) (3/5)).network.provider "X"
    = some ⟨"AllStopPhase", some ⟨"AllGoPhase", some 45⟩⟩ := by
  have hthr : ¬¬((3:ℚ)/5 - xH.last_elapsed_time > xH.phase_duration) := by
    norm_num [xH]
  simp only [FixedPhaseIterationHandler.update, if_neg hthr]
  rfl
example : (xH.update xRN (1/5) (1/5)).network.provider "X" = xProv "X" := by
  have hthr : ¬((1:ℚ)/5 - xH.last_elapsed_time > xH.phase_duration) := by
    norm_num [xH]
  simp only [FixedPhaseIterationHandler.update, if_pos hthr]
  rfl
example : (xH.update xmRN (3/5) (3/5)).fault = some .preconditionViolation := by
  have hthr : ¬¬((3:ℚ)/5 - xH.last_elapsed_time > xH.phase_duration) := by
    norm_num [xH]
  simp only [FixedPhaseIterationHandler.update, if_neg hthr]
  rfl
example : (xH.update tyRN (3/5) (3/5)).network.provider "T"
    = some ⟨"AllGoPhase", none⟩ := by
  have hthr : ¬¬((3:ℚ)/5 - xH.last_elapsed_time > xH.phase_duration) := by
    norm_num [xH]
  simp only [FixedPhaseIterationHandler.update, if_neg hthr]
  rfl
example : (xH.update tyRN (3/5) (3/5)).network.provider "Y"
    = some ⟨"AllStopPhase", some ⟨"AllGoPhase", some 45⟩⟩ := by
  have hthr : ¬¬((3:ℚ)/5 - xH.last_elapsed_time > xH.phase_duration) := by
    norm_num [xH]
  simp only [FixedPhaseIterationHandler.update, if_neg hthr]
  rfl
example : ((⟨1, 0⟩ : FixedPhaseIterationHandler).update xRN 2 3).handler.last_elapsed_time
    = 3 := by
  have hthr : ¬¬((2:ℚ) - (0:ℚ) > (1:ℚ)) := by norm_num
  simp only [FixedPhaseIterationHandler.update, if_neg hthr]

/-! The claims. -/

/-- C1: for every road network whose phase provider has a record for
ring `R` whose pending-next field is populated with phase `B`
(`nxt.state`), an `Update()` call that crosses the duration threshold
sets the provider's current state for `R` to `B` and sets pending-next
to the first entry of `R`'s own reachable-next list for `B`, together
with that entry's duration-until value. -/
theorem update_advances_pending_ring (h : FixedPhaseIterationHandler)
    (rn : RoadNetwork) (e1 e2 : Time) (R : RingId) (res : ProviderResult)
    (nxt : ResultNext)
    (hman : rn.providerIsManual = true)
    (hthr : e1 - h.last_elapsed_time > h.phase_duration)
    (hnodup : rn.phase_ring_book.GetPhaseRings.Nodup)
    (hok : ∀ r ∈ rn.phase_ring_book.GetPhaseRings,
      ringOkB rn.phase_ring_book rn.provider r = true)
    (hmem : R ∈ rn.phase_ring_book.GetPhaseRings)
    (hrec : rn.provider R = some res)
    (hnext : res.next = some nxt) :
    ∃ np nps, (rn.phase_ring_book.GetPhaseRing R).GetNextPhases nxt.state = np :: nps ∧
      (h.update rn e1 e2).network.provider R =
        some ⟨nxt.state, some ⟨np.id, np.duration_until⟩⟩ := by
  have hpr := update_adv_provider h rn e1 e2 hthr
  rw [hman] at hpr
  obtain ⟨-, hpt⟩ := updateLoop_ok_all rn.phase_ring_book
    rn.phase_ring_book.GetPhaseRings rn.provider hnodup hok
  obtain ⟨np, nps, hnp, hval⟩ := (hpt R hmem res hrec).2 nxt hnext
  exact ⟨np, nps, hnp, by rw [hpr]; exact hval⟩

/-- C1 witness: the crosswalk scenario — ring `X` in `AllGoPhase` with
pending-next `AllStopPhase`, `phase_duration = 0.5`, updated at
`t = 0.6`, ends in `AllStopPhase` with pending-next `AllGoPhase`. -/
theorem update_advances_pending_ring_witness :
    ((3:ℚ)/5 - xH.last_elapsed_time > xH.phase_duration) ∧
    ∃ np nps, (xRN.phase_ring_book.GetPhaseRing "X").GetNextPhases "AllStopPhase"
        = np :: nps ∧
      (xH.update xRN (3/5) (3/5)).network.provider "X" =
        some ⟨"AllStopPhase", some ⟨np.id, np.duration_until⟩⟩ :=
  ⟨by norm_num [xH],
    update_advances_pending_ring xH xRN (3/5) (3/5) "X"
      ⟨"AllGoPhase", some ⟨"AllStopPhase", some 45⟩⟩ ⟨"AllStopPhase", some 45⟩
      rfl (by norm_num [xH]) (by decide) (by decide) (by decide) rfl rfl⟩

/-- C2: whenever the first `Elapsed()` reading minus
`last_elapsed_time` is at most `phase_duration`, `Update()` returns
leaving every ring's phase-provider state and `last_elapsed_time`
unmodified; repeated calls under that condition are no-ops. -/
theorem update_noop_below_threshold (h : FixedPhaseIterationHandler) (rn : RoadNetwork)
    (reads : List (Time × Time))
    (hc : ∀ p ∈ reads, p.1 - h.last_elapsed_time ≤ h.phase_duration) :
    updateMany h rn reads = (h, rn, none) := by
  induction reads with
  | nil => rfl
  | cons p rest ih =>
    obtain ⟨e1, e2⟩ := p
    have h1 : e1 - h.last_elapsed_time ≤ h.phase_duration :=
      hc (e1, e2) (List.mem_cons_self _ _)
    have hni : ¬(e1 - h.last_elapsed_time > h.phase_duration) := not_lt.mpr h1
    simp only [updateMany, update_noop h rn e1 e2 hni]
    exact ih (fun q hq => hc q (List.mem_cons_of_mem _ hq))

/-- C2 witness: two polls at `t = 0.2` with `phase_duration = 0.5`
leave handler and network exactly as they were. -/
theorem update_noop_below_threshold_witness :
    (∀ p ∈ [((1:ℚ)/5, (1:ℚ)/5), ((1:ℚ)/5, (1:ℚ)/5)],
      p.1 - xH.last_elapsed_time ≤ xH.phase_duration) ∧
    updateMany xH xRN [((1:ℚ)/5, (1:ℚ)/5), ((1:ℚ)/5, (1:ℚ)/5)] = (xH, xRN, none) := by
  have hc : ∀ p ∈ [((1:ℚ)/5, (1:ℚ)/5), ((1:ℚ)/5, (1:ℚ)/5)],
      p.1 - xH.last_elapsed_time ≤ xH.phase_duration := by
    intro p hp
    simp only [List.mem_cons, List.not_mem_nil, or_false] at hp
    rcases hp with h | h <;> (rw [h]; norm_num [xH])
  exact ⟨hc, update_noop_below_threshold xH xRN _ hc⟩

/-- C3: for every (non-null) timer and road network, constructing a
`FixedPhaseIterationHandler` with duration `d` succeeds exactly when
`d > 0` and otherwise fails with the `InvalidArgument`-class fault of
`MALIPUT_THROW_UNLESS(phase_duration > 0.)`. -/
theorem construct_requires_positive_duration (t : Timer) (rn : RoadNetwork) (d : Time) :
    FixedPhaseIterationHandler.construct (some t) (some rn) d =
      if d > 0 then .ok (t, rn, ⟨d, 0⟩) else .error .invalidArgument := rfl

/-- C4: on an advancing call over a duplicate-free ring collection with
no `front()`-of-empty hazard, a ring with no phase-provider record
makes `Update()` fail with the `PreconditionViolation`-class fault —
the ring is not silently skipped. -/
theorem update_missing_record_faults (h : FixedPhaseIterationHandler)
    (rn : RoadNetwork) (e1 e2 : Time) (R : RingId)
    (hman : rn.providerIsManual = true)
    (hthr : e1 - h.last_elapsed_time > h.phase_duration)
    (hnodup : rn.phase_ring_book.GetPhaseRings.Nodup)
    (hnext : ∀ r ∈ rn.phase_ring_book.GetPhaseRings,
      ringNextOkB rn.phase_ring_book rn.provider r = true)
    (hmem : R ∈ rn.phase_ring_book.GetPhaseRings)
    (hmiss : rn.provider R = none) :
    (h.update rn e1 e2).fault = some .preconditionViolation := by
  rw [update_adv_fault h rn e1 e2 hthr, hman]
  exact updateLoop_missing_fault rn.phase_ring_book
    rn.phase_ring_book.GetPhaseRings rn.provider hnodup hnext R hmem hmiss

/-- C4 witness: network with rings `X` (registered) and `M`
(no provider record); the advancing call faults. -/
theorem update_missing_record_faults_witness :
    ((3:ℚ)/5 - xH.last_elapsed_time > xH.phase_duration) ∧
    (xH.update xmRN (3/5) (3/5)).fault = some .preconditionViolation :=
  ⟨by norm_num [xH],
    update_missing_record_faults xH xmRN (3/5) (3/5) "M"
      rfl (by norm_num [xH]) (by decide) (by decide) (by decide) rfl⟩

/-- C5: on an advancing call over a well-formed, duplicate-free ring
collection, a ring `R` whose record has no pending-next phase is left
unchanged with no fault raised, while a sibling ring `S` with a
populated pending-next is advanced in the same call. -/
theorem update_skips_unpopulated_next (h : FixedPhaseIterationHandler)
    (rn : RoadNetwork) (e1 e2 : Time) (R S : RingId)
    (resR resS : ProviderResult) (nxtS : ResultNext)
    (hman : rn.providerIsManual = true)
    (hthr : e1 - h.last_elapsed_time > h.phase_duration)
    (hnodup : rn.phase_ring_book.GetPhaseRings.Nodup)
    (hok : ∀ r ∈ rn.phase_ring_book.GetPhaseRings,
      ringOkB rn.phase_ring_book rn.provider r = true)
    (hmemR : R ∈ rn.phase_ring_book.GetPhaseRings)
    (hrecR : rn.provider R = some resR) (hnoneR : resR.next = none)
    (hmemS : S ∈ rn.phase_ring_book.GetPhaseRings)
    (hrecS : rn.provider S = some resS) (hsomeS : resS.next = some nxtS) :
    (h.update rn e1 e2).fault = none ∧
    (h.update rn e1 e2).network.provider R = rn.provider R ∧
    ∃ np nps, (rn.phase_ring_book.GetPhaseRing S).GetNextPhases nxtS.state = np :: nps ∧
      (h.update rn e1 e2).network.provider S =
        some ⟨nxtS.state, some ⟨np.id, np.duration_until⟩⟩ := by
  have hfa := update_adv_fault h rn e1 e2 hthr
  have hpr := update_adv_provider h rn e1 e2 hthr
  rw [hman] at hfa hpr
  obtain ⟨hsucc, hpt⟩ := updateLoop_ok_all rn.phase_ring_book
    rn.phase_ring_book.GetPhaseRings rn.provider hnodup hok
  refine ⟨by rw [hfa]; exact hsucc, ?_, ?_⟩
  · rw [hpr]
    exact (hpt R hmemR resR hrecR).1 hnoneR
  · obtain ⟨np, nps, hnp, hS⟩ := (hpt S hmemS resS hrecS).2 nxtS hsomeS
    exact ⟨np, nps, hnp, by rw [hpr]; exact hS⟩

/-- C5 witness: rings `T` (terminal, no pending-next) and `Y`
(pending): `T` keeps its record, `Y` advances, no fault. -/
theorem update_skips_unpopulated_next_witness :
    ((3:ℚ)/5 - xH.last_elapsed_time > xH.phase_duration) ∧
    ((xH.update tyRN (3/5) (3/5)).fault = none ∧
     (xH.update tyRN (3/5) (3/5)).network.provider "T" = tyRN.provider "T" ∧
     ∃ np nps, (tyRN.phase_ring_book.GetPhaseRing "Y").GetNextPhases "AllStopPhase"
         = np :: nps ∧
       (xH.update tyRN (3/5) (3/5)).network.provider "Y" =
         some ⟨"AllStopPhase", some ⟨np.id, np.duration_until⟩⟩) :=
  ⟨by norm_num [xH],
    update_skips_unpopulated_next xH tyRN (3/5) (3/5) "T" "Y"
      ⟨"AllGoPhase", none⟩ ⟨"AllGoPhase", some ⟨"AllStopPhase", some 45⟩⟩
      ⟨"AllStopPhase", some 45⟩
      rfl (by norm_num [xH]) (by decide) (by decide)
      (by decide) rfl rfl (by decide) rfl rfl⟩

/-- C6: if an advancing call faults with `PreconditionViolation` on
ring `R`, the mutations applied to the well-formed rings before `R` in
the iteration order persist (no rollback), and `last_elapsed_time`
remains set to the new (second) reading. -/
theorem update_no_rollback_on_fault (h : FixedPhaseIterationHandler)
    (rn : RoadNetwork) (e1 e2 : Time) (l1 : List RingId) (R : RingId) (l2 : List RingId)
    (hman : rn.providerIsManual = true)
    (hthr : e1 - h.last_elapsed_time > h.phase_duration)
    (hsplit : rn.phase_ring_book.GetPhaseRings = l1 ++ R :: l2)
    (hnodup : (l1 ++ R :: l2).Nodup)
    (hok : ∀ r ∈ l1, ringOkB rn.phase_ring_book rn.provider r = true)
    (hmiss : rn.provider R = none) :
    (h.update rn e1 e2).fault = some .preconditionViolation ∧
    (h.update rn e1 e2).handler.last_elapsed_time = e2 ∧
    ∀ S ∈ l1, ∀ res : ProviderResult, ∀ nxt : ResultNext,
      rn.provider S = some res → res.next = some nxt →
      ∃ np nps, (rn.phase_ring_book.GetPhaseRing S).GetNextPhases nxt.state = np :: nps ∧
        (h.update rn e1 e2).network.provider S =
          some ⟨nxt.state, some ⟨np.id, np.duration_until⟩⟩ := by
  have hfa := update_adv_fault h rn e1 e2 hthr
  have hpr := update_adv_provider h rn e1 e2 hthr
  have hla := update_adv_last h rn e1 e2 hthr
  rw [hman, hsplit] at hfa hpr
  obtain ⟨h1, h2⟩ := updateLoop_no_rollback rn.phase_ring_book l1 rn.provider R l2
    hnodup hok hmiss
  refine ⟨by rw [hfa]; exact h1, hla, ?_⟩
  intro S hS res nxt hres hnxt
  obtain ⟨np, nps, hnp, hSv⟩ := h2 S hS res nxt hres hnxt
  exact ⟨np, nps, hnp, by rw [hpr]; exact hSv⟩

/-- C6 witness: rings `X` (well-formed, pending) then `M` (no record):
the call faults, yet `X` is left advanced and `last_elapsed_time` holds
the new reading. -/
theorem update_no_rollback_on_fault_witness :
    ((3:ℚ)/5 - xH.last_elapsed_time > xH.phase_duration) ∧
    ((xH.update xmRN (3/5) (3/5)).fault = some .preconditionViolation ∧
     (xH.update xmRN (3/5) (3/5)).handler.last_elapsed_time = 3/5 ∧
     ∃ np nps, (xmRN.phase_ring_book.GetPhaseRing "X").GetNextPhases "AllStopPhase"
         = np :: nps ∧
       (xH.update xmRN (3/5) (3/5)).network.provider "X" =
         some ⟨"AllStopPhase", some ⟨np.id, np.duration_until⟩⟩) := by
  have hmain := update_no_rollback_on_fault xH xmRN (3/5) (3/5) ["X"] "M" []
    rfl (by norm_num [xH]) rfl (by decide) (by decide) rfl
  refine ⟨by norm_num [xH], hmain.1, hmain.2.1, ?_⟩
  exact hmain.2.2 "X" (by decide) ⟨"AllGoPhase", some ⟨"AllStopPhase", some 45⟩⟩
    ⟨"AllStopPhase", some 45⟩ rfl rfl

/-- C7: constructing a `DynamicEnvironmentHandler` (and hence any
`FixedPhaseIterationHandler`) with a null timer pointer or a null
road-network pointer fails with the `InvalidArgument`-class fault; with
both pointers non-null the base construction succeeds. -/
theorem construct_rejects_null_pointers (t : Timer) (rn : RoadNetwork)
    (ot : Option Timer) (orn : Option RoadNetwork) (d : Time) :
    DynamicEnvironmentHandler.construct none orn = .error .invalidArgument ∧
    DynamicEnvironmentHandler.construct ot none = .error .invalidArgument ∧
    DynamicEnvironmentHandler.construct (some t) (some rn) = .ok (t, rn) ∧
    FixedPhaseIterationHandler.construct none orn d = .error .invalidArgument ∧
    FixedPhaseIterationHandler.construct ot none d = .error .invalidArgument := by
  refine ⟨?_, rfl, rfl, ?_, rfl⟩
  · cases orn with
    | none => rfl
    | some x => rfl
  · cases orn with
    | none => rfl
    | some x => rfl

/-- Handler used to exhibit the two distinct `Elapsed()` readings of an
advancing `Update()` call: duration 1, `last_elapsed_time` 0. -/
def cexH : FixedPhaseIterationHandler := ⟨1, 0⟩

/-- C8 counterexample: in an advancing call whose first `Elapsed()`
reading is 2 and whose second is 3 (the timer advanced between the two
calls on lines 10 and 13 of the `.cc`), the value stored into
`last_elapsed_time` is not the reading that was compared against
`phase_duration`. -/
theorem update_last_neq_compared_reading :
    ((2:ℚ) - cexH.last_elapsed_time > cexH.phase_duration) ∧
    (cexH.update xRN 2 3).handler.last_elapsed_time ≠ 2 := by
  constructor
  · norm_num [cexH]
  · have he : (cexH.update xRN 2 3).handler.last_elapsed_time = 3 := by
      have hthr : ¬¬((2:ℚ) - cexH.last_elapsed_time > cexH.phase_duration) := by
        norm_num [cexH]
      simp only [FixedPhaseIterationHandler.update, if_neg hthr]
    rw [he]
    norm_num

/-- C8 (amended): in an advancing call, `Update()` reads the timer
twice — the first reading is compared against `phase_duration`, and the
value stored into `last_elapsed_time` is the second reading, taken
after the comparison; the two coincide exactly when the timer does not
advance between the reads. -/
theorem update_stores_second_reading (h : FixedPhaseIterationHandler)
    (rn : RoadNetwork) (e1 e2 : Time)
    (hthr : e1 - h.last_elapsed_time > h.phase_duration) :
    (h.update rn e1 e2).handler.last_elapsed_time = e2 :=
  update_adv_last h rn e1 e2 hthr

/-- C8 witness: with readings 2 then 3, the stored value is 3. -/
theorem update_stores_second_reading_witness :
    ((2:ℚ) - cexH.last_elapsed_time > cexH.phase_duration) ∧
    (cexH.update xRN 2 3).handler.last_elapsed_time = 3 :=
  ⟨by norm_num [cexH],
    update_stores_second_reading cexH xRN 2 3 (by norm_num [cexH])⟩

/-- C9: when the road network's phase provider is a
`ManualPhaseProvider` (the `dynamic_cast` yields non-null), the
unchecked dereference in `Update()` is safe — no execution reaches the
null-pointer-dereference undefined behavior. -/
theorem update_manual_provider_deref_safe (h : FixedPhaseIterationHandler)
    (rn : RoadNetwork) (e1 e2 : Time)
    (hman : rn.providerIsManual = true) :
    (h.update rn e1 e2).fault ≠ some Fault.ubNullProviderDeref := by
  by_cases hc : e1 - h.last_elapsed_time > h.phase_duration
  · rw [update_adv_fault h rn e1 e2 hc, hman]
    exact updateLoop_true_no_nullderef rn.phase_ring_book
      rn.phase_ring_book.GetPhaseRings rn.provider
  · rw [update_noop h rn e1 e2 hc]
    simp

/-- C9 witness: the manual-provider crosswalk network never faults with
a null dereference. -/
theorem update_manual_provider_deref_safe_witness :
    xRN.providerIsManual = true ∧
    (xH.update xRN (3/5) (3/5)).fault ≠ some Fault.ubNullProviderDeref :=
  ⟨rfl, update_manual_provider_deref_safe xH xRN (3/5) (3/5) rfl⟩

/-- C10: on an advancing call, `front()` on the reachable-next list is
safe only under the precondition that `GetNextPhases` is non-empty for
every phase appearing as a pending-next state: under that precondition
no execution reaches the `front()`-of-empty undefined behavior, and
conversely a ring whose pending-next phase has an empty reachable-next
list drives the call into that undefined behavior (not a thrown
error). -/
theorem update_front_empty_is_ub (h : FixedPhaseIterationHandler)
    (rn : RoadNetwork) (e1 e2 : Time)
    (hman : rn.providerIsManual = true)
    (hthr : e1 - h.last_elapsed_time > h.phase_duration) :
    ((rn.phase_ring_book.GetPhaseRings.Nodup →
      (∀ r ∈ rn.phase_ring_book.GetPhaseRings,
        ringNextOkB rn.phase_ring_book rn.provider r = true) →
      (h.update rn e1 e2).fault ≠ some Fault.ubEmptyNextPhasesFront)) ∧
    (∀ (R : RingId) (rest : List RingId) (res : ProviderResult) (nxt : ResultNext),
      rn.phase_ring_book.GetPhaseRings = R :: rest →
      rn.provider R = some res → res.next = some nxt →
      (rn.phase_ring_book.GetPhaseRing R).GetNextPhases nxt.state = [] →
      (h.update rn e1 e2).fault = some Fault.ubEmptyNextPhasesFront) := by
  have hfa := update_adv_fault h rn e1 e2 hthr
  rw [hman] at hfa
  constructor
  · intro hnd hok
    rw [hfa]
    exact updateLoop_nextok_no_front_ub rn.phase_ring_book
      rn.phase_ring_book.GetPhaseRings rn.provider hnd hok
  · intro R rest res nxt hrings hres hnxt hempty
    rw [hfa, hrings]
    have hresg : rn.provider.GetPhase R = some res := hres
    simp [updateLoop, hresg, hnxt, hempty]

/-- C10 witness: the crosswalk network satisfies the non-emptiness
precondition, and the advancing call indeed avoids the
`front()`-of-empty undefined behavior. -/
theorem update_front_empty_is_ub_witness :
    ((3:ℚ)/5 - xH.last_elapsed_time > xH.phase_duration) ∧
    (xH.update xRN (3/5) (3/5)).fault ≠ some Fault.ubEmptyNextPhasesFront :=
  ⟨by norm_num [xH],
    (update_front_empty_is_ub xH xRN (3/5) (3/5) rfl (by norm_num [xH])).1
      (by decide) (by decide)⟩

end Maliput
